import Mathlib

/-!
Shallow embedding of the River Raid terminal game (src/main.rs) and proofs
about its scene buffer, terrain generation, event handling and
render/collision pass.

Conventions of the embedding:
* `u16` values are modelled as `Nat`; where the Rust code performs `u16`
  arithmetic that can wrap, the wrap is made explicit with `% 65536`
  (release-mode wrapping semantics; debug builds would panic instead).
* `f64` design percentages are modelled as `ℚ` (the claims under study
  concern the floor values and segment assembly, not float rounding).
* Code paths that panic in Rust (`unwrap` on `None`, `Vec::remove` out of
  bounds, `gen_range` over an empty range, `% 0`) are modelled with
  `Option`, `none` standing for a panic.
* The thread-local RNG is modelled by an explicit oracle: one
  `(Bool × ℕ)` pair per generated row — the `gen_bool(1/2)` draw and the
  raw value whose reduction mod the range length models `gen_range(0..n)`.
* Per-projectile positions, mutated concurrently by the missile threads,
  are frozen to a `(x, y)` snapshot for the duration of one render pass.
-/

namespace RiverRaid

/-- Cell kinds, from `enum Kind` in the source. -/
inductive Kind where
  | LAND
  | RIVER
  | ENEMY
deriving DecidableEq, Repr

/-- A scene cell, from `struct Cell`. -/
structure Cell where
  kind : Kind
deriving DecidableEq, Repr

/-- Game states, from `enum State`. -/
inductive State where
  | Main
  | Playing
  | Paused
  | GameOver
  | Quit
deriving DecidableEq, Repr

/-- `Cell::create_cells_vec`: a vector of `size` copies of a cell of the
given kind. -/
def create_cells_vec (size : ℕ) (kind : Kind) : List Cell :=
  List.replicate size ⟨kind⟩

/-- Indexed filter: keeps the elements whose running index (starting at
`n`) satisfies `p`.  This is the shape of the source's
`iter().enumerate()` loops that push conditionally on the index. -/
def filterIdx (p : ℕ → Bool) : ℕ → List α → List α
  | _, [] => []
  | n, x :: xs => if p n then x :: filterIdx p (n + 1) xs else filterIdx p (n + 1) xs

/-- `Scene::get_current_scene`: the visible window of the scene buffer.
`start = index % len`, `end = (index + height_size) % len`; if
`end > start` one contiguous chunk is taken, otherwise the tail chunk
(`index > end && index >= start && index <= len`) is followed by the head
chunk (`index <= end`).  (`cells = []` would be a division by zero panic
in Rust; every claim below assumes a non-empty buffer.) -/
def get_current_scene (cells : List (List Cell)) (index : ℕ) (height_size : ℕ) :
    List (List Cell) :=
  let len := cells.length
  let start := index % len
  let e := (index + height_size) % len
  if e > start then
    filterIdx (fun i => decide (start ≤ i) && decide (i ≤ e)) 0 cells
  else
    let first_chunk := filterIdx
      (fun i => !(decide (i ≤ e)) && decide (start ≤ i) && decide (i ≤ len)) 0 cells
    let second_chunk := filterIdx (fun i => decide (i ≤ e)) 0 cells
    first_chunk ++ second_chunk

lemma filterIdx_band_le (l : List α) :
    ∀ (n a b : ℕ),
      filterIdx (fun i => decide (a ≤ i) && decide (i ≤ b)) n l =
        (l.take (b + 1 - n)).drop (a - n) := by
  induction l with
  | nil => intro n a b; simp [filterIdx]
  | cons x xs ih =>
    intro n a b
    simp only [filterIdx, Bool.and_eq_true, decide_eq_true_eq, ih (n + 1) a b]
    by_cases hb : n ≤ b
    · have htake : b + 1 - n = (b - n) + 1 := by omega
      by_cases ha : a ≤ n
      · have h1 : a - n = 0 := by omega
        have h2 : a - (n + 1) = 0 := by omega
        have h3 : b + 1 - (n + 1) = b - n := by omega
        rw [if_pos ⟨ha, hb⟩, htake, h1, h2, h3, List.take_succ_cons,
          List.drop_zero, List.drop_zero]
      · have h1 : a - n = (a - (n + 1)) + 1 := by omega
        have h3 : b + 1 - (n + 1) = b - n := by omega
        rw [if_neg (by omega : ¬ (a ≤ n ∧ n ≤ b)), htake, h1, h3,
          List.take_succ_cons, List.drop_succ_cons]
    · have h0 : b + 1 - n = 0 := by omega
      have h0' : b + 1 - (n + 1) = 0 := by omega
      rw [if_neg (by omega : ¬ (a ≤ n ∧ n ≤ b)), h0, h0', List.take_zero,
        List.take_zero, List.drop_nil, List.drop_nil]

lemma filterIdx_le (l : List α) :
    ∀ (n b : ℕ),
      filterIdx (fun i => decide (i ≤ b)) n l = l.take (b + 1 - n) := by
  induction l with
  | nil => intro n b; simp [filterIdx]
  | cons x xs ih =>
    intro n b
    simp only [filterIdx, decide_eq_true_eq, ih (n + 1) b]
    by_cases hb : n ≤ b
    · rw [if_pos hb, (by omega : b + 1 - n = (b - n) + 1),
        (by omega : b + 1 - (n + 1) = b - n), List.take_succ_cons]
    · rw [if_neg hb, (by omega : b + 1 - n = 0),
        (by omega : b + 1 - (n + 1) = 0), List.take_zero, List.take_zero]

lemma filterIdx_wrap_first (l : List α) :
    ∀ (n e a b : ℕ), e < a →
      filterIdx (fun i => !(decide (i ≤ e)) && decide (a ≤ i) && decide (i ≤ b)) n l =
        filterIdx (fun i => decide (a ≤ i) && decide (i ≤ b)) n l := by
  induction l with
  | nil => intro n e a b _; simp [filterIdx]
  | cons x xs ih =>
    intro n e a b he
    simp only [filterIdx, Bool.and_eq_true, Bool.not_eq_true', decide_eq_true_eq,
      decide_eq_false_iff_not, ih (n + 1) e a b he]
    by_cases ha : a ≤ n ∧ n ≤ b
    · rw [if_pos ⟨⟨by omega, ha.1⟩, ha.2⟩, if_pos ha]
    · rw [if_neg (by tauto), if_neg ha]

/-- C1 (amended): for every start index and window height `h` with
`1 ≤ h < buffer length`, `Scene::get_current_scene` returns exactly
`h + 1` rows, the `i`-th being the buffer row at logical index
`(start + i) mod length`, in low-to-high logical order with no row skipped
or duplicated at the wrap boundary.  (The original claim also covered
`(start + h) mod length = start mod length`, i.e. `h = 0`; there the code
returns the whole rotated buffer — see the counterexample.) -/
theorem c1_window_contents (cells : List (List Cell)) (index h : ℕ)
    (h1 : 1 ≤ h) (h2 : h < cells.length) :
    (get_current_scene cells index h).length = h + 1 ∧
      ∀ i, i ≤ h →
        (get_current_scene cells index h)[i]? =
          cells[(index + i) % cells.length]? := by
  have hlen : 0 < cells.length := by omega
  have hstartlt : index % cells.length < cells.length := Nat.mod_lt _ hlen
  have hmodadd : ∀ k, (index + k) % cells.length =
      (index % cells.length + k) % cells.length := fun k =>
    (Nat.mod_add_mod index cells.length k).symm
  simp only [get_current_scene]
  by_cases hcase : (index + h) % cells.length > index % cells.length
  · -- no wrap: e = start + h
    have hsum : index % cells.length + h < cells.length := by
      by_contra hge
      push_neg at hge
      have hx : (index + h) % cells.length =
          index % cells.length + h - cells.length := by
        rw [hmodadd h, Nat.mod_eq_sub_mod hge, Nat.mod_eq_of_lt (by omega)]
      omega
    have heval : (index + h) % cells.length = index % cells.length + h := by
      rw [hmodadd h, Nat.mod_eq_of_lt hsum]
    rw [if_pos hcase, heval, filterIdx_band_le]
    simp only [Nat.sub_zero]
    constructor
    · rw [List.length_drop, List.length_take]
      omega
    · intro i hi
      rw [List.getElem?_drop, List.getElem?_take, if_pos (by omega)]
      have hx : (index + i) % cells.length = index % cells.length + i := by
        rw [hmodadd i, Nat.mod_eq_of_lt (by omega)]
      rw [hx]
  · -- wrap: e = start + h - len < start
    push_neg at hcase
    have hsum : cells.length ≤ index % cells.length + h := by
      by_contra hlt
      push_neg at hlt
      have hx : (index + h) % cells.length = index % cells.length + h := by
        rw [hmodadd h, Nat.mod_eq_of_lt hlt]
      omega
    have heval : (index + h) % cells.length =
        index % cells.length + h - cells.length := by
      rw [hmodadd h, Nat.mod_eq_sub_mod hsum, Nat.mod_eq_of_lt (by omega)]
    have hewrap : index % cells.length + h - cells.length <
        index % cells.length := by omega
    rw [if_neg (by omega), heval, filterIdx_wrap_first _ _ _ _ _ hewrap,
      filterIdx_band_le, filterIdx_le]
    simp only [Nat.sub_zero]
    rw [List.take_of_length_le (by omega : cells.length ≤ cells.length + 1)]
    constructor
    · rw [List.length_append, List.length_drop, List.length_take]
      omega
    · intro i hi
      by_cases hsplit : i < cells.length - index % cells.length
      · rw [List.getElem?_append, List.length_drop, if_pos (by omega),
          List.getElem?_drop]
        have hx : (index + i) % cells.length = index % cells.length + i := by
          rw [hmodadd i, Nat.mod_eq_of_lt (by omega)]
        rw [hx]
      · rw [List.getElem?_append, List.length_drop, if_neg (by omega),
          List.getElem?_take, if_pos (by omega)]
        have hx : (index + i) % cells.length =
            i - (cells.length - index % cells.length) := by
          rw [hmodadd i, Nat.mod_eq_sub_mod (by omega),
            Nat.mod_eq_of_lt (by omega)]
          omega
        rw [hx]

/-- C1 counterexample: on a 2-row buffer with start 0 and window height 0
(the case `(start + height) mod length = start mod length` the claim says
returns a single wrapped row), `get_current_scene` returns the whole
buffer — 2 rows, not `0 + 1 = 1`. -/
theorem c1_counterexample :
    (get_current_scene [[Cell.mk Kind.LAND], [Cell.mk Kind.RIVER]] 0 0).length = 2 ∧
      (get_current_scene [[Cell.mk Kind.LAND], [Cell.mk Kind.RIVER]] 0 0).length ≠ 0 + 1 := by
  decide

/-- C1 witness: the amended theorem instantiated on a concrete 3-row
buffer with a wrapping window (start 1, height 2). -/
theorem c1_witness :
    (get_current_scene [[Cell.mk Kind.LAND], [Cell.mk Kind.RIVER], [Cell.mk Kind.ENEMY]] 4 2).length = 2 + 1 ∧
      (get_current_scene [[Cell.mk Kind.LAND], [Cell.mk Kind.RIVER], [Cell.mk Kind.ENEMY]] 4 2)[2]? =
        [[Cell.mk Kind.LAND], [Cell.mk Kind.RIVER], [Cell.mk Kind.ENEMY]][(4 + 2) % 3]? :=
  ⟨(c1_window_contents _ 4 2 (by decide) (by decide)).1,
   (c1_window_contents _ 4 2 (by decide) (by decide)).2 2 (by decide)⟩

/-- `Scene::percent_to_terminal_size`:
`f64::floor(percent * terminal_width / 100.0) as usize` with the design
percentage modelled as a rational (`as usize` saturates negatives to 0,
matching `Int.toNat`). -/
def percent_to_terminal_size (percent : ℚ) (terminal_width : ℕ) : ℕ :=
  (⌊percent * (terminal_width : ℚ) / 100⌋).toNat

/-- `Scene::generate_line`: builds one base row from a six-number design
line (five segment percentages and a part height) and returns it together
with the part height.  `design.get(i).unwrap()` is modelled with `getD`
(the panic on a short line is outside every claim, which all concern
well-formed six-number lines). -/
def generate_line (design : List ℚ) (terminal_width : ℕ) : List Cell × ℕ :=
  let land_part_one_size := percent_to_terminal_size (design.getD 0 0) terminal_width
  let river_part_one_size := percent_to_terminal_size (design.getD 1 0) terminal_width
  let land_part_two_size := percent_to_terminal_size (design.getD 2 0) terminal_width
  let river_part_two_size := percent_to_terminal_size (design.getD 3 0) terminal_width
  let land_part_three_size₀ := percent_to_terminal_size (design.getD 4 0) terminal_width
  let total_size := land_part_one_size + river_part_one_size + land_part_two_size
    + river_part_two_size + land_part_three_size₀
  let land_part_three_size :=
    if total_size < terminal_width then
      land_part_three_size₀ + terminal_width - total_size
    else land_part_three_size₀
  let part_height := (⌊design.getD 5 0⌋).toNat
  (create_cells_vec land_part_one_size Kind.LAND
    ++ create_cells_vec river_part_one_size Kind.RIVER
    ++ create_cells_vec land_part_two_size Kind.LAND
    ++ create_cells_vec river_part_two_size Kind.RIVER
    ++ create_cells_vec land_part_three_size Kind.LAND,
   part_height)

/-- C4: whenever the five floored segment sizes sum to at most the
terminal width, the generated row is land/river/land/river/land segments
of exactly those sizes, with the rounding shortfall added to the last land
segment only, and the row length is exactly the terminal width. -/
theorem c4_generate_line_segments (design : List ℚ) (w : ℕ)
    (hle : percent_to_terminal_size (design.getD 0 0) w
      + percent_to_terminal_size (design.getD 1 0) w
      + percent_to_terminal_size (design.getD 2 0) w
      + percent_to_terminal_size (design.getD 3 0) w
      + percent_to_terminal_size (design.getD 4 0) w ≤ w) :
    (generate_line design w).1 =
      List.replicate (percent_to_terminal_size (design.getD 0 0) w) (Cell.mk Kind.LAND)
      ++ List.replicate (percent_to_terminal_size (design.getD 1 0) w) (Cell.mk Kind.RIVER)
      ++ List.replicate (percent_to_terminal_size (design.getD 2 0) w) (Cell.mk Kind.LAND)
      ++ List.replicate (percent_to_terminal_size (design.getD 3 0) w) (Cell.mk Kind.RIVER)
      ++ List.replicate (percent_to_terminal_size (design.getD 4 0) w
            + (w - (percent_to_terminal_size (design.getD 0 0) w
              + percent_to_terminal_size (design.getD 1 0) w
              + percent_to_terminal_size (design.getD 2 0) w
              + percent_to_terminal_size (design.getD 3 0) w
              + percent_to_terminal_size (design.getD 4 0) w))) (Cell.mk Kind.LAND)
    ∧ (generate_line design w).1.length = w := by
  simp only [generate_line, create_cells_vec]
  by_cases hlt : percent_to_terminal_size (design.getD 0 0) w
      + percent_to_terminal_size (design.getD 1 0) w
      + percent_to_terminal_size (design.getD 2 0) w
      + percent_to_terminal_size (design.getD 3 0) w
      + percent_to_terminal_size (design.getD 4 0) w < w
  · rw [if_pos hlt]
    rw [(by omega : percent_to_terminal_size (design.getD 4 0) w + w
      - (percent_to_terminal_size (design.getD 0 0) w
        + percent_to_terminal_size (design.getD 1 0) w
        + percent_to_terminal_size (design.getD 2 0) w
        + percent_to_terminal_size (design.getD 3 0) w
        + percent_to_terminal_size (design.getD 4 0) w)
      = percent_to_terminal_size (design.getD 4 0) w
        + (w - (percent_to_terminal_size (design.getD 0 0) w
          + percent_to_terminal_size (design.getD 1 0) w
          + percent_to_terminal_size (design.getD 2 0) w
          + percent_to_terminal_size (design.getD 3 0) w
          + percent_to_terminal_size (design.getD 4 0) w)))]
    refine ⟨rfl, ?_⟩
    simp only [List.length_append, List.length_replicate]
    omega
  · rw [if_neg hlt]
    rw [(by omega : percent_to_terminal_size (design.getD 4 0) w
      + (w - (percent_to_terminal_size (design.getD 0 0) w
        + percent_to_terminal_size (design.getD 1 0) w
        + percent_to_terminal_size (design.getD 2 0) w
        + percent_to_terminal_size (design.getD 3 0) w
        + percent_to_terminal_size (design.getD 4 0) w))
      = percent_to_terminal_size (design.getD 4 0) w)]
    refine ⟨rfl, ?_⟩
    simp only [List.length_append, List.length_replicate]
    omega

/-- C4 witness: the theorem instantiated on the spec's end-to-end example,
design line `40 20 40 0 0 3` at width 80 (sizes 32/16/32/0/0, total 80). -/
theorem c4_witness :
    (generate_line [40, 20, 40, 0, 0, 3] 80).1 =
      List.replicate 32 (Cell.mk Kind.LAND)
      ++ List.replicate 16 (Cell.mk Kind.RIVER)
      ++ List.replicate 32 (Cell.mk Kind.LAND)
      ++ List.replicate 0 (Cell.mk Kind.RIVER)
      ++ List.replicate 0 (Cell.mk Kind.LAND)
    ∧ (generate_line [40, 20, 40, 0, 0, 3] 80).1.length = 80 := by
  have hv : percent_to_terminal_size (([40, 20, 40, 0, 0, 3] : List ℚ).getD 0 0) 80 = 32 := by
    norm_num [percent_to_terminal_size] <;> rfl
  have hv1 : percent_to_terminal_size (([40, 20, 40, 0, 0, 3] : List ℚ).getD 1 0) 80 = 16 := by
    norm_num [percent_to_terminal_size] <;> rfl
  have hv2 : percent_to_terminal_size (([40, 20, 40, 0, 0, 3] : List ℚ).getD 2 0) 80 = 32 := by
    norm_num [percent_to_terminal_size] <;> rfl
  have hv3 : percent_to_terminal_size (([40, 20, 40, 0, 0, 3] : List ℚ).getD 3 0) 80 = 0 := by
    norm_num [percent_to_terminal_size] <;> rfl
  have hv4 : percent_to_terminal_size (([40, 20, 40, 0, 0, 3] : List ℚ).getD 4 0) 80 = 0 := by
    norm_num [percent_to_terminal_size] <;> rfl
  have h := c4_generate_line_segments [40, 20, 40, 0, 0, 3] 80
    (by rw [hv, hv1, hv2, hv3, hv4])
  rw [hv, hv1, hv2, hv3, hv4] at h
  exact ⟨h.1, h.2⟩

/-- One iteration of the background loop in `Missile::fire` acting on the
missile's `y` (a `u16`, modelled as `ℕ`):
`if *y <= 0 { break; } *y -= 1;`.  `none` means the loop breaks
(self-termination). -/
def fire_step (y : ℕ) : Option ℕ :=
  if y ≤ 0 then none else some (y - 1)

/-- The missile's `y` after `k` iterations of the `Missile::fire` loop,
a break leaving `y` unchanged. -/
def fire_run (y0 : ℕ) : ℕ → ℕ
  | 0 => y0
  | k + 1 =>
    match fire_step (fire_run y0 k) with
    | some y => y
    | none => fire_run y0 k

lemma fire_run_le (y0 : ℕ) : ∀ k, k ≤ y0 → fire_run y0 k = y0 - k := by
  intro k
  induction k with
  | zero => intro _; simp [fire_run]
  | succ k ih =>
    intro hk
    have hlt : 0 < y0 - k := by omega
    rw [fire_run, ih (by omega), fire_step, if_neg (by omega)]
    simp
    omega

/-- C6: a missile fired with initial height `y0` loses exactly 1 from `y`
at each loop iteration, reaches `y = 0` after exactly `y0` iterations,
never goes below 0 (`y` is an unsigned value and the guard runs before the
decrement), and once `y = 0` the loop breaks by itself and `y` stays 0. -/
theorem c6_missile_motion (y0 : ℕ) :
    (∀ k, k ≤ y0 → fire_run y0 k = y0 - k) ∧
      fire_run y0 y0 = 0 ∧
      (∀ k, fire_run y0 (y0 + k) = 0) ∧
      fire_step 0 = none := by
  refine ⟨fire_run_le y0, by rw [fire_run_le y0 y0 le_rfl]; omega, ?_, rfl⟩
  intro k
  induction k with
  | zero => rw [Nat.add_zero, fire_run_le y0 y0 le_rfl]; omega
  | succ k ih => rw [← Nat.add_assoc, fire_run, ih]; rfl

/-- C6 witness: the theorem instantiated at `y0 = 3`: after 2 of 3 steps
the missile is at height 1, after 3 it is at 0, and it stays at 0. -/
theorem c6_witness :
    fire_run 3 2 = 3 - 2 ∧ fire_run 3 3 = 0 ∧ fire_run 3 5 = 0 ∧ fire_step 0 = none :=
  ⟨(c6_missile_motion 3).1 2 (by decide), (c6_missile_motion 3).2.1,
   (c6_missile_motion 3).2.2.1 2, (c6_missile_motion 3).2.2.2⟩

/-- Key codes, the fragment of crossterm's `KeyCode` the game matches on
(`Char`, `Left`, `Right`) plus a catch-all for every other code. -/
inductive KCode where
  | char (c : Char)
  | left
  | right
  | otherKey
deriving DecidableEq, Repr

/-- A key event: code, whether the modifiers are exactly CONTROL, and
whether the event kind is `Press`. -/
structure KeyEv where
  code : KCode
  ctrl : Bool
  press : Bool
deriving DecidableEq, Repr

/-- A missile position snapshot (its `y` is behind a mutex in the source;
frozen here for one handling/render step). -/
structure MissileP where
  x : ℕ
  y : ℕ
deriving DecidableEq, Repr

/-- The shared game fields touched by the input listener. -/
structure GameShared where
  state : State
  player_x : ℕ
  player_y : ℕ
  missiles : List MissileP
deriving DecidableEq, Repr

/-- Wrapping `u16` decrement: `x - 1` on a `u16` in release mode
(debug builds panic on underflow instead). -/
def u16_wrapping_sub_one (x : ℕ) : ℕ :=
  (x + 65535) % 65536

/-- Wrapping `u16` increment: `x + 1` on a `u16` in release mode. -/
def u16_wrapping_add_one (x : ℕ) : ℕ :=
  (x + 1) % 65536

/-- The event dispatch of `Game::listen_events`, one `match event` pass:
the arms in source order are (1) Ctrl+C press → Quit, (2) `'p'` press →
toggle Playing/Paused, (3) any press while in Main → reposition player to
`(cols/2, rows-1)` and enter Playing, (4)/(5) Left/Right press while
Playing → unclamped `player.x -= 1` / `player.x += 1`, (6) Space press
while Playing → push a missile at `(player.x, player.y - 1)`,
(7) wildcard → no change. -/
def handle_event (s : GameShared) (ev : KeyEv) (cols rows : ℕ) : GameShared :=
  if ev.ctrl = true ∧ ev.code = KCode.char 'c' ∧ ev.press = true then
    { s with state := State.Quit }
  else if ev.code = KCode.char 'p' ∧ ev.press = true then
    if s.state = State.Playing then { s with state := State.Paused }
    else if s.state = State.Paused then { s with state := State.Playing }
    else s
  else if ev.press = true ∧ s.state = State.Main then
    { state := State.Playing, player_x := cols / 2,
      player_y := u16_wrapping_sub_one rows, missiles := s.missiles }
  else if ev.code = KCode.left ∧ ev.press = true ∧ s.state = State.Playing then
    { s with player_x := u16_wrapping_sub_one s.player_x }
  else if ev.code = KCode.right ∧ ev.press = true ∧ s.state = State.Playing then
    { s with player_x := u16_wrapping_add_one s.player_x }
  else if ev.code = KCode.char ' ' ∧ ev.press = true ∧ s.state = State.Playing then
    { s with missiles := s.missiles ++ [⟨s.player_x, u16_wrapping_sub_one s.player_y⟩] }
  else s

/-- C3 counterexample: pressing `'p'` (no modifiers) while in Main matches
the pause-toggle arm, which precedes the `Main` arm and does nothing in
state Main — the game does not start and the player is not repositioned,
refuting "any key other than the quit combination starts the game". -/
theorem c3_counterexample :
    handle_event ⟨State.Main, 7, 9, []⟩ ⟨KCode.char 'p', false, true⟩ 80 24 =
        ⟨State.Main, 7, 9, []⟩ ∧
      (handle_event ⟨State.Main, 7, 9, []⟩ ⟨KCode.char 'p', false, true⟩ 80 24).state ≠
        State.Playing := by
  constructor
  · rfl
  · decide

/-- C3 (amended): every key press received in state Main other than
Ctrl+C and the character `'p'` transitions the game to Playing and
repositions the player to `(terminal_width / 2, terminal_height - 1)`. -/
theorem c3_main_start (s : GameShared) (ev : KeyEv) (cols rows : ℕ)
    (hmain : s.state = State.Main)
    (hpress : ev.press = true)
    (hnp : ev.code ≠ KCode.char 'p')
    (hnq : ¬(ev.ctrl = true ∧ ev.code = KCode.char 'c'))
    (hrows : 0 < rows) (hrows' : rows < 65536) :
    handle_event s ev cols rows =
      { state := State.Playing, player_x := cols / 2,
        player_y := rows - 1, missiles := s.missiles } := by
  rw [handle_event, if_neg (by tauto), if_neg (by tauto), if_pos ⟨hpress, hmain⟩]
  have : u16_wrapping_sub_one rows = rows - 1 := by
    rw [u16_wrapping_sub_one]
    omega
  rw [this]

/-- C3 witness: the amended theorem at a concrete input — the key `'x'`
pressed in Main on an 80×24 terminal starts the game with the player at
`(40, 23)`. -/
theorem c3_witness :
    handle_event ⟨State.Main, 0, 0, []⟩ ⟨KCode.char 'x', false, true⟩ 80 24 =
      { state := State.Playing, player_x := 40, player_y := 23, missiles := [] } :=
  c3_main_start ⟨State.Main, 0, 0, []⟩ ⟨KCode.char 'x', false, true⟩ 80 24
    rfl rfl (by decide) (by decide) (by decide) (by decide)

/-- C9: with the player at the left edge (`x = 0`) in Playing, a Left key
press performs the unclamped `u16` decrement `player.x - 1`, wrapping to
65535 (2^16 − 1) instead of clamping (under overflow checks it would
panic); symmetrically a Right press at `x = 65535` wraps to 0 instead of
clamping at the right edge. -/
theorem c9_unclamped_movement :
    (handle_event ⟨State.Playing, 0, 5, []⟩ ⟨KCode.left, false, true⟩ 80 24).player_x
        = 65535 ∧
      (handle_event ⟨State.Playing, 65535, 5, []⟩ ⟨KCode.right, false, true⟩ 80 24).player_x
        = 0 := by
  constructor
  · rfl
  · rfl

/-- The missile loop run for one cell in `Game::render_playing`: iterate
the missile vector with its enumeration index (starting at `i`); a missile
with `cell.kind == ENEMY && missile_x == x && missile_y <= y` pushes its
index and downgrades the cell kind to River for the rest of the scan; a
missile with `missile_y == 0` also pushes its index.  Returns the final
cell kind and the pushed indexes in order. -/
def scan_missiles (kind : Kind) (x y : ℕ) : ℕ → List MissileP → Kind × List ℕ
  | _, [] => (kind, [])
  | i, m :: ms =>
    let hit : Bool := kind = Kind.ENEMY ∧ m.x = x ∧ m.y ≤ y
    let kind' := if hit then Kind.RIVER else kind
    let idxs := (if hit then [i] else []) ++ (if m.y = 0 then [i] else [])
    let rest := scan_missiles kind' x y (i + 1) ms
    (rest.1, idxs ++ rest.2)

/-- `Vec::remove(i)`: removes the element at `i`, shifting the rest;
`none` models the panic when `i` is out of bounds. -/
def vec_remove (l : List α) (i : ℕ) : Option (List α) :=
  if i < l.length then some (l.eraseIdx i) else none

/-- The removal loop `for index in missile_indexes_to_remove.iter()
{ missiles.remove(*index) }`: the recorded indexes are applied in order to
the shrinking vector. -/
def remove_all (l : List α) : List ℕ → Option (List α)
  | [] => some l
  | i :: is =>
    match vec_remove l i with
    | some l' => remove_all l' is
    | none => none

/-- One cell's full missile sweep in `Game::render_playing`
(lines 331–355): collect the removal indexes (possibly downgrading the
cell to River), then remove them in order from the shrinking vector. -/
def sweep_cell (c : Cell) (x y : ℕ) (missiles : List MissileP) :
    Option (Cell × List MissileP) :=
  let scanned := scan_missiles c.kind x y 0 missiles
  (remove_all missiles scanned.2).map (fun ms => (⟨scanned.1⟩, ms))

/-- C2: a projectile at the position of an Enemy cell being drawn
(`y > 0`, so no out-of-bounds interference from the `y == 0` rule) is
removed from the collection and the cell is downgraded to River, exactly
once: with two projectiles on the same Enemy cell in one pass only the
first triggers the removal/downgrade, because the cell kind has already
changed to River when the second is examined. -/
theorem c2_enemy_collision (x y : ℕ) (hy : 0 < y) :
    sweep_cell ⟨Kind.ENEMY⟩ x y [⟨x, y⟩] = some (⟨Kind.RIVER⟩, []) ∧
      sweep_cell ⟨Kind.ENEMY⟩ x y [⟨x, y⟩, ⟨x, y⟩] =
        some (⟨Kind.RIVER⟩, [⟨x, y⟩]) := by
  have hy0 : ¬ ((⟨x, y⟩ : MissileP).y = 0) := by simp; omega
  constructor
  · simp [sweep_cell, scan_missiles, remove_all, vec_remove, hy0]
  · simp [sweep_cell, scan_missiles, remove_all, vec_remove, hy0, List.eraseIdx]

/-- C2 witness: the theorem at the concrete position `(1, 2)`. -/
theorem c2_witness :
    sweep_cell ⟨Kind.ENEMY⟩ 1 2 [⟨1, 2⟩] = some (⟨Kind.RIVER⟩, []) ∧
      sweep_cell ⟨Kind.ENEMY⟩ 1 2 [⟨1, 2⟩, ⟨1, 2⟩] =
        some (⟨Kind.RIVER⟩, [⟨1, 2⟩]) :=
  c2_enemy_collision 1 2 (by decide)

/-- C8: when one cell's sweep records two or more removal indexes, applying
them in order to the shrinking vector misbehaves.  First conjunct (wrong
removals): for an Enemy cell at `(5, 2)` and missiles
`[(5,2), (5,0), (9,9)]`, indexes `[0, 1]` are recorded (enemy hit and
`y == 0`), but after removing index 0 the second removal deletes the
*unmarked* missile `(9,9)` and the marked `(5,0)` survives.  Second
conjunct (panic): a single missile at an Enemy cell with `y = 0` is
recorded twice as index 0, and the second `Vec::remove(0)` on the
now-empty vector is an out-of-bounds panic (`none`). -/
theorem c8_stale_removal_indexes :
    sweep_cell ⟨Kind.ENEMY⟩ 5 2 [⟨5, 2⟩, ⟨5, 0⟩, ⟨9, 9⟩] =
        some (⟨Kind.RIVER⟩, [⟨5, 0⟩]) ∧
      sweep_cell ⟨Kind.ENEMY⟩ 5 0 [⟨5, 0⟩] = none := by
  decide

/-- The inner column loop of `Game::render_playing`: sweep each cell of a
row (column index `x` counting up), threading the missile vector. -/
def sweep_row : List Cell → ℕ → ℕ → List MissileP → Option (List Cell × List MissileP)
  | [], _, _, ms => some ([], ms)
  | c :: cs, x, y, ms =>
    match sweep_cell c x y ms with
    | none => none
    | some (c', ms') =>
      match sweep_row cs (x + 1) y ms' with
      | none => none
      | some (cs', ms'') => some (c' :: cs', ms'')

/-- The outer row loop of `Game::render_playing`: sweep each row of the
reversed window (row index `y` counting down the screen), threading the
missile vector. -/
def sweep_scene : List (List Cell) → ℕ → List MissileP → Option (List (List Cell) × List MissileP)
  | [], _, ms => some ([], ms)
  | r :: rs, y, ms =>
    match sweep_row r 0 y ms with
    | none => none
    | some (r', ms') =>
      match sweep_scene rs (y + 1) ms' with
      | none => none
      | some (rs', ms'') => some ((r' :: rs'), ms'')

/-- One `Game::render_playing` pass: reverse the window, sweep every cell
(drawing, collisions, missile removals), then look up the cell at the
player's `(x, y)` in the just-rendered window and move to GameOver when
its kind is Land or Enemy.  `none` models the panics (`unwrap` on an
out-of-range player position, out-of-bounds `Vec::remove`). -/
def render_playing (window : List (List Cell)) (missiles : List MissileP)
    (player_x player_y : ℕ) (state : State) :
    Option (List (List Cell) × List MissileP × State) :=
  match sweep_scene window.reverse 0 missiles with
  | none => none
  | some (scene, ms') =>
    match scene[player_y]? with
    | none => none
    | some row =>
      match row[player_x]? with
      | none => none
      | some cell =>
        some (scene, ms',
          if cell.kind = Kind.LAND ∨ cell.kind = Kind.ENEMY then State.GameOver
          else state)

/-- C7: if the cell at the player's `(x, y)` in the just-rendered window
has kind Land or Enemy at the end of a Playing render pass, the state
becomes GameOver in that same pass; and once in GameOver no
Playing-guarded mutation can occur — every input event leaves the player
position and the missile collection unchanged. -/
theorem c7_player_collision_gameover (window : List (List Cell))
    (ms : List MissileP) (px py : ℕ) (st : State)
    (out : List (List Cell) × List MissileP × State)
    (h : render_playing window ms px py st = some out)
    (hhit : ((out.1.getD py []).getD px ⟨Kind.RIVER⟩).kind = Kind.LAND ∨
      ((out.1.getD py []).getD px ⟨Kind.RIVER⟩).kind = Kind.ENEMY) :
    out.2.2 = State.GameOver ∧
      ∀ (s : GameShared) (ev : KeyEv) (cols rows : ℕ), s.state = State.GameOver →
        (handle_event s ev cols rows).player_x = s.player_x ∧
        (handle_event s ev cols rows).player_y = s.player_y ∧
        (handle_event s ev cols rows).missiles = s.missiles := by
  constructor
  · unfold render_playing at h
    cases hs : sweep_scene window.reverse 0 ms with
    | none => rw [hs] at h; exact absurd h (by simp)
    | some p =>
      rw [hs] at h
      obtain ⟨scene, ms'⟩ := p
      dsimp only at h
      cases hr : scene[py]? with
      | none => rw [hr] at h; exact absurd h (by simp)
      | some row =>
        rw [hr] at h
        dsimp only at h
        cases hc : row[px]? with
        | none => rw [hc] at h; exact absurd h (by simp)
        | some cell =>
          rw [hc] at h
          dsimp only at h
          have hout : out = (scene, ms',
              if cell.kind = Kind.LAND ∨ cell.kind = Kind.ENEMY then State.GameOver
              else st) := by
            exact (Option.some.injEq _ _ ▸ h).symm
          subst hout
          have hrow : scene.getD py [] = row := by
            rw [List.getD_eq_getElem?_getD, hr, Option.getD_some]
          have hcell : row.getD px ⟨Kind.RIVER⟩ = cell := by
            rw [List.getD_eq_getElem?_getD, hc, Option.getD_some]
          simp only [hrow, hcell] at hhit
          simp only [if_pos hhit]
  · intro s ev cols rows hgo
    simp only [handle_event, hgo]
    split
    · exact ⟨rfl, rfl, rfl⟩
    · split
      · simp
      · split
        · simp_all
        · split
          · simp_all
          · split
            · simp_all
            · split
              · simp_all
              · exact ⟨rfl, rfl, rfl⟩

/-- C7 witness: the theorem at a concrete input — a 1×1 window whose only
cell is Land, the player at `(0, 0)`: the pass ends in GameOver, and
GameOver blocks all Playing-guarded mutation. -/
theorem c7_witness :
    (([[Cell.mk Kind.LAND]], ([] : List MissileP), State.GameOver) :
        List (List Cell) × List MissileP × State).2.2 = State.GameOver ∧
      ∀ (s : GameShared) (ev : KeyEv) (cols rows : ℕ), s.state = State.GameOver →
        (handle_event s ev cols rows).player_x = s.player_x ∧
        (handle_event s ev cols rows).player_y = s.player_y ∧
        (handle_event s ev cols rows).missiles = s.missiles :=
  c7_player_collision_gameover [[Cell.mk Kind.LAND]] [] 0 0 State.Playing
    ([[Cell.mk Kind.LAND]], [], State.GameOver) (by decide) (by decide)

/-- The `river_indexes` computation of `Scene::generate_with_height`:
the enumeration indexes (running index starting at `n`) of the
River-typed cells of the base line. -/
def river_indexes : ℕ → List Cell → List ℕ
  | _, [] => []
  | n, c :: cs =>
    if c.kind = Kind.RIVER then n :: river_indexes (n + 1) cs
    else river_indexes (n + 1) cs

/-- One iteration of the enemy loop in `Scene::generate_with_height`:
`o.1` is the `gen_bool(1.0/2.0)` draw; when it is true, `o.2 % len`
models `gen_range(0..river_indexes.len())` — `none` models the panic of
`gen_range` over the empty range — and the chosen River cell of the
cloned line is overwritten with an Enemy cell. -/
def seed_enemy (line : List Cell) (o : Bool × ℕ) : Option (List Cell) :=
  if o.1 then
    let ri := river_indexes 0 line
    if ri.length = 0 then none
    else some (line.set (ri.getD (o.2 % ri.length) 0) ⟨Kind.ENEMY⟩)
  else some line

/-- The `for _ in 0..height` loop of `Scene::generate_with_height` in the
`with_enemy` case: each row clones the line and independently runs the
enemy seeding, consuming one oracle entry per row. -/
def seed_rows (line : List Cell) : ℕ → List (Bool × ℕ) → Option (List (List Cell))
  | 0, _ => some []
  | h + 1, os =>
    match seed_enemy line (os.headD (false, 0)) with
    | none => none
    | some row =>
      match seed_rows line h os.tail with
      | none => none
      | some rows => some (row :: rows)

/-- `Scene::generate_with_height`: the base line replicated `height`
times; with `with_enemy` each replicated row gets the enemy seeding. -/
def generate_with_height (line : List Cell) (height : ℕ) (with_enemy : Bool)
    (oracle : List (Bool × ℕ)) : Option (List (List Cell)) :=
  if with_enemy then seed_rows line height oracle
  else some (List.replicate height line)

/-- The design loop of `Scene::make`: each design line generates a base
line and its part; `has_enemy` is false exactly for the first design line
(`design_index == 0`, here `first = true`); parts are appended in order. -/
def make_parts (w : ℕ) : List (List ℚ) → List (List (Bool × ℕ)) → Bool →
    Option (List (List Cell))
  | [], _, _ => some []
  | d :: ds, oracles, first =>
    match generate_with_height (generate_line d w).1 (generate_line d w).2
        (!first) (oracles.headD []) with
    | none => none
    | some part =>
      match make_parts w ds oracles.tail false with
      | none => none
      | some rest => some (part ++ rest)

/-- `Scene::make`, with the parsed design file, the terminal width and
the RNG oracle as explicit inputs. -/
def make (designs : List (List ℚ)) (w : ℕ)
    (oracles : List (List (Bool × ℕ))) : Option (List (List Cell)) :=
  make_parts w designs oracles true

lemma headD_eq_getD (os : List α) (d : α) : os.headD d = os.getD 0 d := by
  cases os <;> rfl

lemma tail_getD (os : List α) (i : ℕ) (d : α) :
    os.tail.getD i d = os.getD (i + 1) d := by
  cases os <;> rfl

lemma river_indexes_eq_nil (line : List Cell)
    (hno : ∀ c ∈ line, c.kind ≠ Kind.RIVER) :
    ∀ n, river_indexes n line = [] := by
  induction line with
  | nil => intro n; rfl
  | cons c cs ih =>
    intro n
    rw [river_indexes, if_neg (hno c (List.mem_cons_self c cs)), ih]
    intro x hx
    exact hno x (List.mem_cons_of_mem _ hx)

lemma river_indexes_ne_nil (line : List Cell)
    (hriver : ∃ c ∈ line, c.kind = Kind.RIVER) :
    ∀ n, river_indexes n line ≠ [] := by
  induction line with
  | nil => obtain ⟨c, hc, _⟩ := hriver; exact absurd hc (List.not_mem_nil c)
  | cons c cs ih =>
    intro n
    obtain ⟨x, hx, hxr⟩ := hriver
    rcases List.mem_cons.mp hx with hx | hx
    · subst hx
      rw [river_indexes, if_pos hxr]
      exact List.cons_ne_nil _ _
    · rw [river_indexes]
      split
      · exact List.cons_ne_nil _ _
      · exact ih ⟨x, hx, hxr⟩ (n + 1)

lemma seed_rows_none (line : List Cell)
    (hempty : (river_indexes 0 line).length = 0) :
    ∀ (height : ℕ) (oracle : List (Bool × ℕ)) (i : ℕ), i < height →
      (oracle.getD i (false, 0)).1 = true →
      seed_rows line height oracle = none := by
  intro height
  induction height with
  | zero => intro oracle i hi _; omega
  | succ h ih =>
    intro oracle i hi hdraw
    rw [seed_rows]
    by_cases hd : (oracle.headD (false, 0)).1 = true
    · rw [seed_enemy, if_pos hd, if_pos hempty]
    · have hi0 : i ≠ 0 := by
        intro h0
        rw [h0, ← headD_eq_getD] at hdraw
        exact hd hdraw
      rw [seed_enemy, if_neg hd]
      have := ih oracle.tail (i - 1) (by omega)
        (by rw [tail_getD, (by omega : i - 1 + 1 = i)]; exact hdraw)
      rw [this]

lemma seed_rows_some (line : List Cell)
    (hne : (river_indexes 0 line).length ≠ 0) :
    ∀ (height : ℕ) (oracle : List (Bool × ℕ)),
      ∃ rows, seed_rows line height oracle = some rows := by
  intro height
  induction height with
  | zero => intro oracle; exact ⟨[], rfl⟩
  | succ h ih =>
    intro oracle
    obtain ⟨rows, hrows⟩ := ih oracle.tail
    rw [seed_rows, seed_enemy]
    by_cases hd : (oracle.headD (false, 0)).1 = true
    · rw [if_pos hd, if_neg hne]
      exact ⟨_, by rw [hrows]⟩
    · rw [if_neg hd]
      exact ⟨_, by rw [hrows]⟩

/-- C10: if a base line contains no River cell, the enemy seeding of
`Scene::generate_with_height` (run with `with_enemy = true`, i.e. for
every part after the first) panics as soon as some row's 50% draw comes
up true — `gen_range(0..0)` over the empty river-index list; conversely,
a base line with at least one River cell never panics, so the required
input precondition is exactly that every design line used with enemies
yields at least one River cell. -/
theorem c10_empty_river_panics :
    (∀ (line : List Cell) (height : ℕ) (oracle : List (Bool × ℕ)) (i : ℕ),
        (∀ c ∈ line, c.kind ≠ Kind.RIVER) → i < height →
        (oracle.getD i (false, 0)).1 = true →
        generate_with_height line height true oracle = none)
    ∧ (∀ (line : List Cell) (height : ℕ) (oracle : List (Bool × ℕ)),
        (∃ c ∈ line, c.kind = Kind.RIVER) →
        ∃ rows, generate_with_height line height true oracle = some rows) := by
  constructor
  · intro line height oracle i hno hi hdraw
    rw [generate_with_height, if_pos rfl]
    exact seed_rows_none line
      (by rw [river_indexes_eq_nil line hno 0]; rfl) height oracle i hi hdraw
  · intro line height oracle hriver
    rw [generate_with_height, if_pos rfl]
    exact seed_rows_some line
      (fun h => river_indexes_ne_nil line hriver 0 (List.length_eq_zero.mp h))
      height oracle

/-- C10 witness: an all-Land base line with an enemy draw on row 0 panics
(`none`); a base line with a River cell succeeds for any oracle. -/
theorem c10_witness :
    generate_with_height [⟨Kind.LAND⟩] 1 true [(true, 0)] = none ∧
      ∃ rows, generate_with_height [⟨Kind.RIVER⟩] 2 true [] = some rows :=
  ⟨c10_empty_river_panics.1 [⟨Kind.LAND⟩] 1 [(true, 0)] 0
      (by decide) (by decide) (by decide),
   c10_empty_river_panics.2 [⟨Kind.RIVER⟩] 2 [] ⟨⟨Kind.RIVER⟩, by decide, rfl⟩⟩

lemma generate_line_no_enemy (d : List ℚ) (w c : ℕ) :
    (((generate_line d w).1).getD c ⟨Kind.LAND⟩).kind ≠ Kind.ENEMY := by
  have hmem : ∀ x ∈ (generate_line d w).1, x.kind ≠ Kind.ENEMY := by
    intro x hx
    simp only [generate_line, create_cells_vec, List.mem_append,
      List.mem_replicate] at hx
    rcases hx with (((⟨_, h⟩ | ⟨_, h⟩) | ⟨_, h⟩) | ⟨_, h⟩) | ⟨_, h⟩ <;>
      (subst h; decide)
  by_cases hc : c < (generate_line d w).1.length
  · rw [List.getD_eq_getElem _ _ hc]
    exact hmem _ (List.getElem_mem hc)
  · rw [List.getD_eq_default _ _ (by omega)]
    decide

lemma river_indexes_mem (line : List Cell) :
    ∀ (n i : ℕ), i ∈ river_indexes n line →
      n ≤ i ∧ i - n < line.length ∧
        (line.getD (i - n) ⟨Kind.LAND⟩).kind = Kind.RIVER := by
  induction line with
  | nil => intro n i hi; exact absurd hi (List.not_mem_nil i)
  | cons c cs ih =>
    intro n i hi
    rw [river_indexes] at hi
    by_cases hr : c.kind = Kind.RIVER
    · rw [if_pos hr] at hi
      rcases List.mem_cons.mp hi with hi | hi
      · subst hi
        refine ⟨le_rfl, by simp, ?_⟩
        rw [Nat.sub_self, List.getD_cons_zero, hr]
      · obtain ⟨h1, h2, h3⟩ := ih (n + 1) i hi
        refine ⟨by omega, by simp; omega, ?_⟩
        rw [(by omega : i - n = (i - (n + 1)) + 1), List.getD_cons_succ]
        exact h3
    · rw [if_neg hr] at hi
      obtain ⟨h1, h2, h3⟩ := ih (n + 1) i hi
      refine ⟨by omega, by simp; omega, ?_⟩
      rw [(by omega : i - n = (i - (n + 1)) + 1), List.getD_cons_succ]
      exact h3

lemma seed_enemy_kinds (line : List Cell) (o : Bool × ℕ) (row : List Cell)
    (h : seed_enemy line o = some row)
    (hno : ∀ c : ℕ, (line.getD c ⟨Kind.LAND⟩).kind ≠ Kind.ENEMY) :
    ∀ c : ℕ, (row.getD c ⟨Kind.LAND⟩).kind = Kind.ENEMY →
      (line.getD c ⟨Kind.LAND⟩).kind = Kind.RIVER := by
  intro c henemy
  rw [seed_enemy] at h
  by_cases hdraw : o.1 = true
  · rw [if_pos hdraw] at h
    by_cases hlen : (river_indexes 0 line).length = 0
    · rw [if_pos hlen] at h
      exact absurd h (by simp)
    · rw [if_neg hlen] at h
      have hrow : line.set ((river_indexes 0 line).getD
          (o.2 % (river_indexes 0 line).length) 0) ⟨Kind.ENEMY⟩ = row :=
        Option.some_injective _ h
      have hmodlt : o.2 % (river_indexes 0 line).length <
          (river_indexes 0 line).length := Nat.mod_lt _ (by omega)
      have hidxmem : (river_indexes 0 line).getD
          (o.2 % (river_indexes 0 line).length) 0 ∈ river_indexes 0 line := by
        rw [List.getD_eq_getElem _ _ hmodlt]
        exact List.getElem_mem hmodlt
      obtain ⟨-, hlt, hriver⟩ := river_indexes_mem line 0 _ hidxmem
      rw [Nat.sub_zero] at hlt hriver
      by_cases hc : c = (river_indexes 0 line).getD
          (o.2 % (river_indexes 0 line).length) 0
      · rw [hc]
        exact hriver
      · exfalso
        apply hno c
        rw [← henemy, ← hrow, List.getD_eq_getElem?_getD,
          List.getD_eq_getElem?_getD,
          List.getElem?_set_ne (fun hx => hc hx.symm)]
  · rw [if_neg hdraw] at h
    have hrow : line = row := Option.some_injective _ h
    exact absurd (hrow ▸ henemy) (hno c)

lemma seed_rows_mem (line : List Cell) :
    ∀ (h : ℕ) (os : List (Bool × ℕ)) (rows : List (List Cell)),
      seed_rows line h os = some rows →
      ∀ row ∈ rows, ∃ o, seed_enemy line o = some row := by
  intro h
  induction h with
  | zero =>
    intro os rows hrows row hrow
    rw [seed_rows] at hrows
    obtain rfl : ([] : List (List Cell)) = rows := Option.some_injective _ hrows
    exact absurd hrow (List.not_mem_nil row)
  | succ k ih =>
    intro os rows hrows row hrow
    rw [seed_rows] at hrows
    cases h0 : seed_enemy line (os.headD (false, 0)) with
    | none => rw [h0] at hrows; exact absurd hrows (by simp)
    | some row0 =>
      rw [h0] at hrows
      cases h1 : seed_rows line k os.tail with
      | none => rw [h1] at hrows; exact absurd hrows (by simp)
      | some rows' =>
        rw [h1] at hrows
        obtain rfl : row0 :: rows' = rows := Option.some_injective _ hrows
        rcases List.mem_cons.mp hrow with hr | hr
        · exact ⟨os.headD (false, 0), hr ▸ h0⟩
        · exact ih os.tail rows' h1 row hr

lemma make_parts_spec (w : ℕ) :
    ∀ (designs : List (List ℚ)) (oracles : List (List (Bool × ℕ)))
      (first : Bool) (scene : List (List Cell)),
      make_parts w designs oracles first = some scene →
      ∃ parts : List (List (List Cell)),
        scene = parts.flatten ∧ parts.length = designs.length ∧
        (∀ k, k < parts.length → ∀ row ∈ parts.getD k [], ∀ c : ℕ,
          (row.getD c ⟨Kind.LAND⟩).kind = Kind.ENEMY →
          (((generate_line (designs.getD k []) w).1).getD c ⟨Kind.LAND⟩).kind
            = Kind.RIVER) ∧
        (first = true → ∀ row ∈ parts.getD 0 [], ∀ c : ℕ,
          (row.getD c ⟨Kind.LAND⟩).kind ≠ Kind.ENEMY) := by
  intro designs
  induction designs with
  | nil =>
    intro oracles first scene hmk
    rw [make_parts] at hmk
    obtain rfl : ([] : List (List Cell)) = scene := Option.some_injective _ hmk
    exact ⟨[], rfl, rfl, fun k hk => absurd hk (by simp),
      fun _ row hrow => absurd hrow (List.not_mem_nil row)⟩
  | cons d ds ih =>
    intro oracles first scene hmk
    rw [make_parts] at hmk
    cases hgen : generate_with_height (generate_line d w).1 (generate_line d w).2
        (!first) (oracles.headD []) with
    | none => rw [hgen] at hmk; exact absurd hmk (by simp)
    | some part =>
      rw [hgen] at hmk
      cases hrest : make_parts w ds oracles.tail false with
      | none => rw [hrest] at hmk; exact absurd hmk (by simp)
      | some rest =>
        rw [hrest] at hmk
        obtain rfl : part ++ rest = scene := Option.some_injective _ hmk
        obtain ⟨parts', hjoin, hlen, hclause, -⟩ := ih oracles.tail false rest hrest
        have hpart_ok : ∀ row ∈ part, ∀ c : ℕ,
            (row.getD c ⟨Kind.LAND⟩).kind = Kind.ENEMY →
            (((generate_line d w).1).getD c ⟨Kind.LAND⟩).kind = Kind.RIVER := by
          intro row hrow c henemy
          cases first with
          | true =>
            rw [generate_with_height] at hgen
            simp only [Bool.not_true, Bool.false_eq_true, if_false] at hgen
            have hpart : List.replicate (generate_line d w).2 (generate_line d w).1
                = part := Option.some_injective _ hgen
            have : row = (generate_line d w).1 :=
              List.eq_of_mem_replicate (hpart ▸ hrow)
            exact absurd (this ▸ henemy) (generate_line_no_enemy d w c)
          | false =>
            rw [generate_with_height] at hgen
            simp only [Bool.not_false, if_true] at hgen
            obtain ⟨o, ho⟩ := seed_rows_mem (generate_line d w).1
              (generate_line d w).2 (oracles.headD []) part hgen row hrow
            exact seed_enemy_kinds (generate_line d w).1 o row ho
              (fun c => generate_line_no_enemy d w c) c henemy
        refine ⟨part :: parts', by rw [List.flatten_cons, hjoin], by simp [hlen], ?_, ?_⟩
        · intro k hk row hrow c henemy
          cases k with
          | zero =>
            rw [List.getD_cons_zero] at hrow ⊢
            exact hpart_ok row hrow c henemy
          | succ k' =>
            rw [List.getD_cons_succ] at hrow ⊢
            exact hclause k' (by simp at hk; omega) row hrow c henemy
        · intro hfirst row hrow c henemy
          subst hfirst
          rw [List.getD_cons_zero] at hrow
          rw [generate_with_height] at hgen
          simp only [Bool.not_true, Bool.false_eq_true, if_false] at hgen
          have hpart : List.replicate (generate_line d w).2 (generate_line d w).1
              = part := Option.some_injective _ hgen
          have : row = (generate_line d w).1 :=
            List.eq_of_mem_replicate (hpart ▸ hrow)
          exact absurd (this ▸ henemy) (generate_line_no_enemy d w c)

/-- C5: in any scene produced by `Scene::make`, the rows decompose into
one part per design line; every Enemy cell of a part's row sits at a
column that is River-typed in that part's generated base line (never a
Land position), and no row of the first part contains an Enemy cell. -/
theorem c5_enemies_on_river (designs : List (List ℚ)) (w : ℕ)
    (oracles : List (List (Bool × ℕ))) (scene : List (List Cell))
    (h : make designs w oracles = some scene) :
    ∃ parts : List (List (List Cell)),
      scene = parts.flatten ∧ parts.length = designs.length ∧
      (∀ k, k < parts.length → ∀ row ∈ parts.getD k [], ∀ c : ℕ,
        (row.getD c ⟨Kind.LAND⟩).kind = Kind.ENEMY →
        (((generate_line (designs.getD k []) w).1).getD c ⟨Kind.LAND⟩).kind
          = Kind.RIVER) ∧
      (∀ row ∈ parts.getD 0 [], ∀ c : ℕ,
        (row.getD c ⟨Kind.LAND⟩).kind ≠ Kind.ENEMY) := by
  obtain ⟨parts, h1, h2, h3, h4⟩ := make_parts_spec w designs oracles true scene h
  exact ⟨parts, h1, h2, h3, h4 rfl⟩

/-- C5 witness: the theorem applied to the one-line design `0 100 0 0 0 1`
at width 1 (a single all-River row, first part, no enemies). -/
theorem c5_witness :
    ∃ parts : List (List (List Cell)),
      ([[(⟨Kind.RIVER⟩ : Cell)]] : List (List Cell)) = parts.flatten ∧
      parts.length = ([[0, 100, 0, 0, 0, 1]] : List (List ℚ)).length ∧
      (∀ k, k < parts.length → ∀ row ∈ parts.getD k [], ∀ c : ℕ,
        (row.getD c ⟨Kind.LAND⟩).kind = Kind.ENEMY →
        (((generate_line (([[0, 100, 0, 0, 0, 1]] : List (List ℚ)).getD k []) 1).1).getD c
          ⟨Kind.LAND⟩).kind = Kind.RIVER) ∧
      (∀ row ∈ parts.getD 0 [], ∀ c : ℕ,
        (row.getD c ⟨Kind.LAND⟩).kind ≠ Kind.ENEMY) := by
  have h0 : percent_to_terminal_size (([0, 100, 0, 0, 0, 1] : List ℚ).getD 0 0) 1 = 0 := by
    norm_num [percent_to_terminal_size] <;> rfl
  have h1 : percent_to_terminal_size (([0, 100, 0, 0, 0, 1] : List ℚ).getD 1 0) 1 = 1 := by
    norm_num [percent_to_terminal_size] <;> rfl
  have h2 : percent_to_terminal_size (([0, 100, 0, 0, 0, 1] : List ℚ).getD 2 0) 1 = 0 := by
    norm_num [percent_to_terminal_size] <;> rfl
  have h3 : percent_to_terminal_size (([0, 100, 0, 0, 0, 1] : List ℚ).getD 3 0) 1 = 0 := by
    norm_num [percent_to_terminal_size] <;> rfl
  have h4 : percent_to_terminal_size (([0, 100, 0, 0, 0, 1] : List ℚ).getD 4 0) 1 = 0 := by
    norm_num [percent_to_terminal_size] <;> rfl
  have h5 : (⌊([0, 100, 0, 0, 0, 1] : List ℚ).getD 5 0⌋).toNat = 1 := by
    norm_num <;> rfl
  have hline : generate_line [0, 100, 0, 0, 0, 1] 1 = ([⟨Kind.RIVER⟩], 1) := by
    simp only [generate_line, create_cells_vec]
    rw [h0, h1, h2, h3, h4, h5]
    rfl
  have hmake : make [[0, 100, 0, 0, 0, 1]] 1 [[]] = some [[⟨Kind.RIVER⟩]] := by
    rw [make]
    simp only [make_parts]
    rw [hline]
    decide
  exact c5_enemies_on_river [[0, 100, 0, 0, 0, 1]] 1 [[]] [[⟨Kind.RIVER⟩]] hmake

end RiverRaid
